import Mathlib

/-
Verification of the trading-signal state machine in
`src/crates/backgambler/src/data/test/test.py` (class `TestStrategy`).

The strategy keeps three pieces of mutable state:
  * `self.order`        — the pending order object, or `None`;
  * `self.position`     — the broker position (truthy iff its size is nonzero);
  * `self.bar_executed` — the bar count recorded on a `Completed` notification
                          (a Python attribute that does not exist until first set).

Two callbacks drive it: `next` (one call per bar) and `notify_order`
(order-status events).  The surrounding backtest engine (backtrader) is an
external collaborator: it appends bars, fills orders, and delivers status
events; those engine behaviours are modelled from the spec where noted.
-/

namespace TradeRs

/-- Order side.  The strategy issues market orders via `self.buy()` and
`self.sell()`; the side is the only request attribute it controls. -/
inductive Side where
  | buy
  | sell
deriving DecidableEq, Repr

/-- The backtrader order statuses the strategy inspects
(`Submitted`, `Accepted`, `Completed`, `Canceled`, `Margin`, `Rejected`). -/
inductive OrderStatus where
  | Submitted
  | Accepted
  | Completed
  | Canceled
  | Margin
  | Rejected
deriving DecidableEq, Repr

/-- The strategy-visible mutable state of `TestStrategy`:
`order` is `self.order` (the pending order's side, or `none`);
`positionSize` is the signed size of `self.position` (the broker position,
`0` meaning flat, which is exactly when `not self.position` holds);
`bar_executed` is `self.bar_executed`, `none` while the Python attribute is
still unset (reading it then would raise `AttributeError`). -/
structure StratState where
  order : Option Side
  positionSize : Int
  bar_executed : Option Nat
deriving DecidableEq, Repr

/-- The state after `__init__`: `self.order = None`, no position, and
`bar_executed` not yet assigned. -/
def initState : StratState :=
  { order := none, positionSize := 0, bar_executed := none }

/-- Embedding of `TestStrategy.notify_order` (test.py lines 25-44).
`barLen` is `len(self)`, the current bar count.  `Submitted`/`Accepted`
return early with no change; `Completed` sets `self.bar_executed = len(self)`
(the `isbuy`/`issell` split only chooses a log message, so the stored value
ignores the side); every status other than `Submitted`/`Accepted` falls
through to `self.order = None`. -/
def notify_order (s : StratState) (barLen : Nat) (status : OrderStatus)
    ( side : Side) : StratState :=
  if status = OrderStatus.Submitted ∨ status = OrderStatus.Accepted then
    s
  else if status = OrderStatus.Completed then
    { s with bar_executed := some barLen, order := none }
  else
    { s with order := none }

/-- Embedding of `TestStrategy.next` (test.py lines 46-76).
`closes` is the close-price history, most recent first, so its first three
entries are `self.dataclose[0]`, `self.dataclose[-1]`, `self.dataclose[-2]`;
`barLen` is `len(self)`.  The result is `none` when the call would raise
(reading `self.bar_executed` before any assignment), otherwise the updated
state together with the side of the order issued on this call, if any.
The guard for histories shorter than 3 bars is engine behaviour absent from
the repository (the lookback is resolved inside backtrader).  Modelled from
the spec: with fewer than 3 bars the two-step decline condition cannot be
evaluated and the call is a no-op that does not raise. -/
def next (s : StratState) (closes : List Int) (barLen : Nat) :
    Option (StratState × Option Side) :=
  if s.order.isSome then
    some (s, none)
  else if s.positionSize = 0 then
    match closes with
    | c0 :: c1 :: c2 :: _ =>
      if c0 < c1 then
        if c1 < c2 then
          some ({ s with order := some Side.buy }, some Side.buy)
        else
          some (s, none)
      else
        some (s, none)
    | _ => some (s, none)
  else
    match s.bar_executed with
    | none => none
    | some be =>
      if barLen ≥ be + 5 then
        some ({ s with order := some Side.sell }, some Side.sell)
      else
        some (s, none)

/-- Modelled from the spec: the broker-side fill that the engine applies to
`self.position` before delivering a terminal notification.  The spec's
transition table sets the quantity on `Completed` buy and clears it on
`Completed` sell (default stake 1); non-`Completed` statuses never move the
position.  This updater is absent from the repository (it lives in
backtrader's broker). -/
def applyFill (s : StratState) (status : OrderStatus) ( side : Side) :
    StratState :=
  if status = OrderStatus.Completed then
    { s with
      positionSize :=
        s.positionSize + (match side with | Side.buy => 1 | Side.sell => -1) }
  else
    s

/-- A concrete state with a buy order pending and no position, as after the
first buy is issued: used as a sample input below. -/
def pendingBuy : StratState :=
  { order := some Side.buy, positionSize := 0, bar_executed := none }

/-- A concrete in-market state with no pending order and entry recorded at
bar 2: used as a sample input below. -/
def longAt2 : StratState :=
  { order := none, positionSize := 1, bar_executed := some 2 }

/-- A concrete state with a sell order pending against a one-unit position:
used as a sample input below. -/
def pendingSell : StratState :=
  { order := some Side.sell, positionSize := 1, bar_executed := some 0 }

/-- A whole-system state: the strategy state plus the engine-owned price
history (most recent close first) and bar count. -/
structure SysState where
  strat : StratState
  closes : List Int
  barLen : Nat
deriving DecidableEq, Repr

/-- The system state at the start of a run: fresh strategy, empty history. -/
def initSys : SysState :=
  { strat := initState, closes := [], barLen := 0 }

/-- One engine-driven event.  Modelled from the spec: the engine either
appends a bar and calls `next`, or delivers an order-status event for the
order that is actually pending (so the event's side matches `self.order`),
applying the broker fill before the notification.  A bar step requires the
`next` call not to raise. -/
inductive Step : SysState → SysState → Prop where
  | bar (σ : SysState) (c : Int) (s' : StratState) (req : Option Side)
      (h : next σ.strat (c :: σ.closes) (σ.barLen + 1) = some (s', req)) :
      Step σ { strat := s', closes := c :: σ.closes, barLen := σ.barLen + 1 }
  | update (σ : SysState) (status : OrderStatus) ( side : Side)
      (hpend : σ.strat.order = some side) :
      Step σ { strat := notify_order (applyFill σ.strat status side)
                 σ.barLen status side,
               closes := σ.closes, barLen := σ.barLen }

/-- States reachable from the initial system state by engine events. -/
inductive Reachable : SysState → Prop where
  | init : Reachable initSys
  | step {σ σ' : SysState} : Reachable σ → Step σ σ' → Reachable σ'

/-- With a pending order, `next` hits the early `return` on line 52: the state
is returned untouched and nothing is issued. -/
theorem next_of_pending {s : StratState} {closes : List Int} {n : Nat} {v : Side}
    (h : s.order = some v) : next s closes n = some (s, none) := by
  unfold next
  simp [h]

/-- Exhaustive case analysis of a non-raising `next` call: either it is a
no-op, or it issues a buy from a flat, non-pending state, or it issues a sell
from an in-market, non-pending state. -/
theorem next_cases {s s' : StratState} {closes : List Int} {n : Nat}
    {req : Option Side} (h : next s closes n = some (s', req)) :
    (s' = s ∧ req = none) ∨
    (s.order = none ∧ s.positionSize = 0 ∧
      s' = { s with order := some Side.buy } ∧ req = some Side.buy) ∨
    (s.order = none ∧ s.positionSize ≠ 0 ∧
      s' = { s with order := some Side.sell } ∧ req = some Side.sell) := by
  unfold next at h
  by_cases ho : s.order.isSome
  · simp [ho] at h
    exact Or.inl ⟨h.1.symm, h.2.symm⟩
  · have ho' : s.order = none := Option.not_isSome_iff_eq_none.mp ho
    simp [ho] at h
    by_cases hp : s.positionSize = 0
    · simp [hp] at h
      rcases closes with _ | ⟨c0, _ | ⟨c1, _ | ⟨c2, rest⟩⟩⟩ <;> simp at h
      · exact Or.inl ⟨h.1.symm, h.2.symm⟩
      · exact Or.inl ⟨h.1.symm, h.2.symm⟩
      · exact Or.inl ⟨h.1.symm, h.2.symm⟩
      · by_cases h01 : c0 < c1
        · by_cases h12 : c1 < c2
          · simp [h01, h12] at h
            refine Or.inr (Or.inl ⟨ho', hp, ?_, h.2.symm⟩)
            rw [← h.1]
            simp [hp]
          · simp [h01, h12] at h
            exact Or.inl ⟨h.1.symm, h.2.symm⟩
        · simp [h01] at h
          exact Or.inl ⟨h.1.symm, h.2.symm⟩
    · simp [hp] at h
      cases hbe : s.bar_executed with
      | none => simp [hbe] at h
      | some be =>
        simp [hbe] at h
        by_cases hn : n ≥ be + 5
        · simp [hn] at h
          exact Or.inr (Or.inr ⟨ho', hp, h.1.symm, h.2.symm⟩)
        · simp [hn] at h
          exact Or.inl ⟨h.1.symm, h.2.symm⟩

/-- `next` can only raise by reading an unset `bar_executed` while in the
market: if being in the market implies `bar_executed` is set, the call is
defined. -/
theorem next_isSome {s : StratState} (closes : List Int) (n : Nat)
    (h : s.positionSize ≠ 0 → s.bar_executed.isSome = true) :
    (next s closes n).isSome = true := by
  unfold next
  by_cases ho : s.order.isSome
  · simp [ho]
  · simp [ho]
    by_cases hp : s.positionSize = 0
    · simp [hp]
      rcases closes with _ | ⟨c0, _ | ⟨c1, _ | ⟨c2, rest⟩⟩⟩ <;> simp
      by_cases h01 : c0 < c1 <;> by_cases h12 : c1 < c2 <;> simp [h01, h12]
    · simp [hp]
      rcases Option.isSome_iff_exists.mp (h hp) with ⟨be, hbe⟩
      simp [hbe]
      by_cases hn : n ≥ be + 5 <;> simp [hn]

/-- The inductive invariant of the run: the position size is never negative,
a pending sell is backed by at least one unit of position, and a nonzero
position implies `bar_executed` has been assigned. -/
def Inv (σ : SysState) : Prop :=
  0 ≤ σ.strat.positionSize ∧
  (σ.strat.order = some Side.sell → 1 ≤ σ.strat.positionSize) ∧
  (σ.strat.positionSize ≠ 0 → σ.strat.bar_executed.isSome = true)

theorem inv_init : Inv initSys := by
  refine ⟨le_refl 0, ?_, ?_⟩ <;> intro h <;> simp [initSys, initState] at h

theorem inv_step {σ σ' : SysState} (hI : Inv σ) (hs : Step σ σ') : Inv σ' := by
  obtain ⟨h0, hsell, hbe⟩ := hI
  cases hs with
  | bar c s' req h =>
    rcases next_cases h with ⟨hse, _⟩ | ⟨_, _, hse, _⟩ | ⟨_, hp, hse, _⟩
    · subst hse
      exact ⟨h0, hsell, hbe⟩
    · subst hse
      refine ⟨h0, ?_, hbe⟩
      intro hc
      simp at hc
    · subst hse
      refine ⟨h0, ?_, hbe⟩
      intro _
      show 1 ≤ σ.strat.positionSize
      omega
  | update status side hpend =>
    cases status <;> cases side <;>
      simp_all [notify_order, applyFill, Inv] <;> omega

/-- Every reachable state satisfies the inductive invariant. -/
theorem reachable_inv {σ : SysState} (h : Reachable σ) : Inv σ := by
  induction h with
  | init => exact inv_init
  | step _ hs ih => exact inv_step ih hs

/-- C1: for every strategy state with a pending order (`self.order` non-None)
and every price history and bar count, the `next` call issues no buy and no
sell — so at most one order is ever in flight. -/
theorem pending_guard_no_issue (s : StratState) (closes : List Int) (n : Nat)
    (v : Side) (h : s.order = some v) :
    (next s closes n).map Prod.snd = some none := by
  rw [next_of_pending h]
  rfl

theorem pending_guard_no_issue_w :
    (next pendingBuy [1, 2, 3] 7).map Prod.snd = some none :=
  pending_guard_no_issue pendingBuy [1, 2, 3] 7 Side.buy rfl

/-- C2: from the Flat state (no pending order, zero position) with at least
3 bars of history, a buy is issued iff `close[0] < close[-1]` and
`close[-1] < close[-2]` (strict, so equal closes never trigger entry); and no
call of `next` from a non-Flat state ever issues a buy. -/
theorem entry_condition_exact :
    (∀ (s : StratState) (c0 c1 c2 : Int) (rest : List Int) (n : Nat),
      s.order = none → s.positionSize = 0 →
      ((next s (c0 :: c1 :: c2 :: rest) n).map Prod.snd =
          some (some Side.buy) ↔ c0 < c1 ∧ c1 < c2)) ∧
    (∀ (s s' : StratState) (closes : List Int) (n : Nat) (req : Option Side),
      ¬(s.order = none ∧ s.positionSize = 0) →
      next s closes n = some (s', req) → req ≠ some Side.buy) := by
  constructor
  · intro s c0 c1 c2 rest n ho hp
    unfold next
    by_cases h01 : c0 < c1 <;> by_cases h12 : c1 < c2 <;>
      simp [ho, hp, h01, h12]
  · intro s s' closes n req hns h
    rcases next_cases h with ⟨_, hr⟩ | ⟨ho, hp, _, _⟩ | ⟨_, _, _, hr⟩
    · simp [hr]
    · exact absurd ⟨ho, hp⟩ hns
    · simp [hr]

theorem entry_condition_exact_w :
    (next initState [8, 9, 10] 3).map Prod.snd = some (some Side.buy) :=
  (entry_condition_exact.1 initState 8 9 10 [] 3 rfl rfl).mpr (by decide)

/-- C3: in the Long state (nonzero position, no pending order) with
`bar_executed = i`, the `next` call at bar count `n` issues a sell iff
`n ≥ i + 5` — exactly 5 bars after entry, never earlier. -/
theorem exit_timing_exact (s : StratState) (closes : List Int) (n i : Nat)
    (ho : s.order = none) (hp : s.positionSize ≠ 0)
    (hb : s.bar_executed = some i) :
    (next s closes n).map Prod.snd = some (some Side.sell) ↔ n ≥ i + 5 := by
  unfold next
  by_cases hn : n ≥ i + 5 <;> simp [ho, hp, hb, hn]

theorem exit_timing_exact_w :
    ((next longAt2 [7] 7).map Prod.snd = some (some Side.sell)) ∧
    ¬((next longAt2 [7] 6).map Prod.snd = some (some Side.sell)) :=
  ⟨(exit_timing_exact longAt2 [7] 7 2 rfl (by decide) rfl).mpr (by decide),
   fun hc =>
     absurd ((exit_timing_exact longAt2 [7] 6 2 rfl (by decide) rfl).mp hc)
       (by decide)⟩

/-- C4: a `next` call in the Flat state with fewer than 3 bars of history is
a defined no-op: it returns (does not raise) with the state unchanged and no
order issued. -/
theorem history_guard_noop (s : StratState) (closes : List Int) (n : Nat)
    (hlen : closes.length < 3) (ho : s.order = none)
    (hp : s.positionSize = 0) :
    next s closes n = some (s, none) := by
  unfold next
  rcases closes with _ | ⟨c0, _ | ⟨c1, _ | ⟨c2, rest⟩⟩⟩
  · simp [ho, hp]
  · simp [ho, hp]
  · simp [ho, hp]
  · simp at hlen
    omega

theorem history_guard_noop_w :
    next initState [5, 6] 2 = some (initState, none) :=
  history_guard_noop initState [5, 6] 2 (by decide) rfl rfl

/-- C5: a `Canceled`, `Margin` or `Rejected` event after a buy was issued from
the Flat state restores exactly the pre-buy state (pending order cleared,
position still 0, `bar_executed` untouched) — identical to never having
attempted entry, uniformly for all three failure statuses, with no retry. -/
theorem rejection_returns_flat (s0 s1 : StratState) (closes : List Int)
    (n m : Nat) (status : OrderStatus)
    (hst : status = OrderStatus.Canceled ∨ status = OrderStatus.Margin ∨
      status = OrderStatus.Rejected)
    (hflat : s0.order = none)
    (hbuy : next s0 closes n = some (s1, some Side.buy)) :
    notify_order s1 m status Side.buy = s0 ∧ s0.positionSize = 0 := by
  obtain ⟨o, p, b⟩ := s0
  simp only at hflat
  subst hflat
  rcases next_cases hbuy with ⟨_, hr⟩ | ⟨_, hp, hse, _⟩ | ⟨_, _, _, hr⟩
  · simp at hr
  · subst hse
    simp only at hp
    rcases hst with h | h | h <;> subst h <;>
      exact ⟨by simp [notify_order], hp⟩
  · simp at hr

theorem rejection_returns_flat_w :
    notify_order pendingBuy 4 OrderStatus.Margin Side.buy = initState ∧
    initState.positionSize = 0 :=
  rejection_returns_flat initState pendingBuy [8, 9, 10] 3 4
    OrderStatus.Margin (Or.inr (Or.inl rfl)) rfl (by decide)

/-- C6: a `Submitted` or `Accepted` notification changes nothing, in every
state: the pending order, position and `bar_executed` are all untouched (and
`notify_order` issues no order). -/
theorem submitted_accepted_frame (s : StratState) (n : Nat)
    (status : OrderStatus) (v : Side)
    (hst : status = OrderStatus.Submitted ∨ status = OrderStatus.Accepted) :
    notify_order s n status v = s := by
  unfold notify_order
  simp [hst]

theorem submitted_accepted_frame_w :
    notify_order pendingBuy 9 OrderStatus.Submitted Side.buy = pendingBuy :=
  submitted_accepted_frame pendingBuy 9 OrderStatus.Submitted Side.buy
    (Or.inl rfl)

/-- C7: in every reachable system state the position size is never negative
(the strategy never shorts), and a pending sell exists only while the
position is nonzero, so the position returns to 0 and never dips below. -/
theorem position_never_negative (σ : SysState) (h : Reachable σ) :
    0 ≤ σ.strat.positionSize ∧
    (σ.strat.order = some Side.sell → σ.strat.positionSize ≠ 0) := by
  obtain ⟨h0, hsell, _⟩ := reachable_inv h
  refine ⟨h0, fun hs => ?_⟩
  have := hsell hs
  omega

theorem position_never_negative_w :
    0 ≤ initSys.strat.positionSize ∧
    (initSys.strat.order = some Side.sell →
      initSys.strat.positionSize ≠ 0) :=
  position_never_negative initSys Reachable.init

/-- C8: while an order is pending, `next` is a complete no-op on the strategy
state: the state (position, pending order, `bar_executed`) is returned
unchanged and nothing is issued, whatever the history and bar count — even
when the entry or exit condition holds, and for a pending buy and a pending
sell alike. -/
theorem pending_guard_frame (s : StratState) (closes : List Int) (n : Nat)
    (v : Side) (h : s.order = some v) :
    next s closes n = some (s, none) :=
  next_of_pending h

theorem pending_guard_frame_w :
    next pendingSell [1, 2, 3] 10 = some (pendingSell, none) :=
  pending_guard_frame pendingSell [1, 2, 3] 10 Side.sell rfl

/-- C9: in every reachable system state the next bar's `next` call is
defined: it never reads `self.bar_executed` unset (the sell branch is only
reachable after a `Completed` fill has assigned it), so no `AttributeError`
can occur. -/
theorem bar_executed_defined (σ : SysState) (h : Reachable σ) (c : Int) :
    (next σ.strat (c :: σ.closes) (σ.barLen + 1)).isSome = true := by
  obtain ⟨_, _, hbe⟩ := reachable_inv h
  exact next_isSome _ _ hbe

theorem bar_executed_defined_w :
    (next initSys.strat (0 :: initSys.closes) (initSys.barLen + 1)).isSome =
      true :=
  bar_executed_defined initSys Reachable.init 0

/-- C10: a `Completed` notification sets `bar_executed` to the current bar
count regardless of the order's side (a completed sell overwrites the entry
index just like a completed buy), and clears the pending order. -/
theorem completed_sets_bar_executed (s : StratState) (n : Nat) (v : Side) :
    notify_order s n OrderStatus.Completed v =
      { s with order := none, bar_executed := some n } := by
  unfold notify_order
  simp

end TradeRs
